import Mathlib

/-!
Verification of the highly-variable-genes (HVG) selection module
(`src/scanpy/preprocessing/_highly_variable_genes.py`).

Conventions of the embedding:
* Floating-point numbers are modelled as rationals (`ℚ`); `NaN` is modelled
  explicitly via `Option ℚ` (`none` = NaN).
* Gene vectors are Lean lists indexed by gene position.
* External numeric routines that live outside this repository (the `skmisc.loess`
  fit, `np.sqrt`) are abstracted as parameters; functions from this repository
  that are not under `src/` (`series_to_array`, `get_mad`, `_get_mean_var`) are
  modelled from the spec, as marked in their doc comments.
* Python code that can raise (`IndexError` in `_nth_highest`) is embedded with
  `Option` results (`none` = exception).
-/

/-- Embeds `np.nan_to_num` and the in-place `dispersion_norm[np.isnan(dispersion_norm)] = 0`
write: a NaN normalized dispersion becomes `0`, finite values are unchanged. -/
def nanToZero (x : Option ℚ) : ℚ := x.getD 0

/-- The `_Cutoffs` dataclass (interval mode of the cutoff policy). -/
structure Cutoffs where
  min_disp : ℚ
  max_disp : ℚ
  min_mean : ℚ
  max_mean : ℚ

/-- Embeds `_Cutoffs.in_bounds`: the interval predicate
`(mean > min_mean) & (mean < max_mean) & (disp > min_disp) & (disp < max_disp)`. -/
def Cutoffs.in_bounds (c : Cutoffs) (mean dispersion_norm : ℚ) : Bool :=
  (decide (mean > c.min_mean) && decide (mean < c.max_mean))
    && (decide (dispersion_norm > c.min_disp) && decide (dispersion_norm < c.max_disp))

/-- Embeds `_subset_genes`, interval branch (lines 412–414): replace NaN normalized
dispersions by 0 in place, then evaluate `cutoff.in_bounds` element-wise. -/
def subsetGenesInterval (c : Cutoffs) (mean : List ℚ) (dispersion_norm : List (Option ℚ)) :
    List Bool :=
  List.zipWith c.in_bounds mean (dispersion_norm.map nanToZero)

/-- Embeds `_highly_variable_genes_batched`, interval branch (lines 524–527):
`series_to_array` (from `_distributed`, not under `src/`) is modelled from the
spec as exposing the column's values, so the in-place NaN→0 write applies to the
`dispersions_norm` column that `in_bounds` is evaluated on. -/
def batchedIntervalSelect (c : Cutoffs) (means : List ℚ) (dispersions_norm : List (Option ℚ)) :
    List Bool :=
  let dispersion_norm := dispersions_norm.map nanToZero
  List.zipWith c.in_bounds means dispersion_norm

/-- Embeds `x[~np.isnan(x)]` in `_nth_highest`: the finite (non-NaN) normalized
dispersions, in input order. -/
def finiteVals (dispersion_norm : List (Option ℚ)) : List ℚ := dispersion_norm.filterMap id

/-- Embeds `x[::-1].sort()` in `_nth_highest`: sort descending. -/
def sortDesc (xs : List ℚ) : List ℚ := xs.insertionSort (· ≥ ·)

/-- Embeds `_nth_highest` (lines 429–439): drop NaNs; if `n` exceeds the number of
finite values, warn (second component `true`) and clamp `n`; sort descending and
return `x[n-1]`. Python's `x[-1]` (when `n = 0`) is the last element, and
indexing an empty array raises `IndexError`, modelled as `none`. -/
def nthHighest (dispersion_norm : List (Option ℚ)) (n : ℕ) : Option (ℚ × Bool) :=
  if min n (finiteVals dispersion_norm).length = 0 then
    (sortDesc (finiteVals dispersion_norm)).getLast?.map
      (fun v => (v, decide ((finiteVals dispersion_norm).length < n)))
  else
    ((sortDesc (finiteVals dispersion_norm)).get?
        (min n (finiteVals dispersion_norm).length - 1)).map
      (fun v => (v, decide ((finiteVals dispersion_norm).length < n)))

/-- Embeds `_subset_genes`, top-N branch (lines 415–426): clamp `n_top_genes` to the
gene count, compute the dispersion cutoff via `_nth_highest`, and select genes
with `np.nan_to_num(dispersion_norm) >= disp_cut_off`. The second component is
the `_nth_highest` warning flag; `none` propagates the `IndexError`. -/
def subsetGenesTopN (dispersion_norm : List (Option ℚ)) (n_top_genes : ℕ) :
    Option (List Bool × Bool) :=
  (nthHighest dispersion_norm (min n_top_genes dispersion_norm.length)).map
    (fun tw => (dispersion_norm.map (fun d => decide (nanToZero d ≥ tw.1)), tw.2))

/-- Number of genes flagged `highly_variable` in a boolean selection mask. -/
def countSel (sel : List Bool) : ℕ := sel.countP id

/-- Embeds `_highly_variable_genes_seurat_v3`, clipping for one gene (lines 113–131,
dense path): `vmax` stands for `np.sqrt(N)` and `reg_std` for the regularized
standard deviation derived from the external `skmisc.loess` fit (both passed in
as parameters; `sqrt` is irrational on `ℚ`). A cell's count is clipped to
`clip_val = reg_std * vmax + mean` via `np.putmask(counts, counts > clip_val,
clip_val)`. -/
def clipCounts (counts : List ℚ) (reg_std vmax mean : ℚ) : List ℚ :=
  counts.map (fun x => if x > reg_std * vmax + mean then reg_std * vmax + mean else x)

/-- Lines 133–140: `norm_gene_var = (1/((N-1)*reg_std^2)) * (N*mean^2 +
squared_batch_counts_sum - 2*batch_counts_sum*mean)`, the sums taken over the
clipped counts, `N = data_batch.shape[0]` the number of cells in the batch. -/
def normGeneVar (counts : List ℚ) (reg_std vmax mean : ℚ) : ℚ :=
  (1 / (((counts.length : ℚ) - 1) * reg_std ^ 2))
    * ((counts.length : ℚ) * mean ^ 2
        + ((clipCounts counts reg_std vmax mean).map (fun c => c ^ 2)).sum
        - 2 * (clipCounts counts reg_std vmax mean).sum * mean)

/-- Lines 103–110: `not_const = var > 0`; `estimat_var = np.zeros(n_genes)`;
`estimat_var[not_const] = model.outputs.fitted_values`. The loess fit is the
external `skmisc.loess` library; its fitted values (one per positive-variance
gene) are the `fitted` parameter, scattered back over the positive-variance
positions. -/
def estimatVar : List ℚ → List ℚ → List ℚ
  | [], _ => []
  | v :: vs, fitted =>
    if 0 < v then
      match fitted with
      | f :: fs => f :: estimatVar vs fs
      | [] => 0 :: estimatVar vs []
    else 0 :: estimatVar vs fitted

/-- The gene positions entering the loess fit: `not_const = var > 0` (line 103). -/
def notConstIdx (var : List ℚ) : List ℕ :=
  (List.range var.length).filter (fun g => decide (0 < var.getD g 0))

/-- One batch's per-gene rows `(gene index, int(highly_variable))` after
`df["highly_variable"].astype(int)` (line 500); genes filtered out of the batch
have already been re-added with `highly_variable = False` (lines 480–488), so
each batch spans the full gene universe. -/
def batchRows (sel : List Bool) : List (ℕ × ℕ) :=
  (List.range sel.length).map (fun g => (g, if sel.getD g false then 1 else 0))

/-- Embeds `pd.concat(dfs, axis=0)` over all batches (line 498). -/
def concatRows (sels : List (List Bool)) : List (ℕ × ℕ) :=
  sels.flatMap batchRows

/-- Embeds `df.groupby("gene", observed=True).agg(highly_variable="sum")`
(lines 501–508), evaluated for gene `g`. -/
def groupSumSel (sels : List (List Bool)) (g : ℕ) : ℕ :=
  (((concatRows sels).filter (fun r => r.1 == g)).map (fun r => r.2)).sum

/-- Line 511: `df["highly_variable_nbatches"] = df["highly_variable"]` (the
group-summed selection counts). -/
def highlyVariableNbatches (sels : List (List Bool)) (g : ℕ) : ℕ := groupSumSel sels g

/-- Line 512: `df["highly_variable_intersection"] =
df["highly_variable_nbatches"] == len(batches)`. -/
def highlyVariableIntersection (sels : List (List Bool)) (g : ℕ) : Bool :=
  highlyVariableNbatches sels g == sels.length

/-- A row of the per-bin statistics dataframe: `avg` (location) and `dev`
(scale); `none` models NaN. -/
structure BinStats where
  avg : Option ℚ
  dev : Option ℚ
  deriving DecidableEq

/-- Embeds pandas `"mean"` aggregation (line 344): skips NaN; NaN only when every value
in the bin is NaN. -/
def pandasMean (xs : List (Option ℚ)) : Option ℚ :=
  if (xs.filterMap id).length = 0 then none
  else some ((xs.filterMap id).sum / ((xs.filterMap id).length : ℚ))

/-- Embeds `np.std` with `ddof=1` (curried via functools) as applied by `agg` to
a bin's raw values (line 344). On a pandas Series `np.std` delegates to
`Series.std`, which skips NaN: the result is NaN exactly when fewer than two
values are finite (the `ddof=1` denominator makes a singleton 0/0), otherwise
the square root of the sample variance of the finite values. The square root
(irrational on `ℚ`) is abstracted as the `sqrtFn` parameter. -/
def npStdDdof1 (sqrtFn : ℚ → ℚ) (xs : List (Option ℚ)) : Option ℚ :=
  if (xs.filterMap id).length ≤ 1 then none
  else some (sqrtFn
    ((((xs.filterMap id).map
        (fun x => (x - (xs.filterMap id).sum / ((xs.filterMap id).length : ℚ)) ^ 2)).sum)
      / (((xs.filterMap id).length : ℚ) - 1)))

/-- Embeds `_stats_seurat` (lines 337–361): per-bin `avg`/`dev`; bins whose `dev` is
NaN (in particular every single-gene bin) get the fallback `dev := avg` (the
original location) and `avg := 0`. The second component records whether the
diagnostic `logg.debug` message fires, i.e. whether some gene lies in a
fallback bin (with `observed=True` every grouped bin is nonempty). -/
def statsSeurat (sqrtFn : ℚ → ℚ) (bins : List (List (Option ℚ))) :
    List BinStats × Bool :=
  (bins.map (fun b =>
      if (npStdDdof1 sqrtFn b).isNone
      then BinStats.mk (some 0) (pandasMean b)
      else BinStats.mk (pandasMean b) (npStdDdof1 sqrtFn b)),
   bins.any (fun b => (npStdDdof1 sqrtFn b).isNone))

/-- Median of a list of rationals (`np.median` over finite values): middle of
the sorted list, or the average of the two middle elements; `0` for the empty
list (never used on empty input). -/
def medianQ (vs : List ℚ) : ℚ :=
  if (vs.insertionSort (· ≤ ·)).length % 2 = 1 then
    (vs.insertionSort (· ≤ ·)).getD ((vs.insertionSort (· ≤ ·)).length / 2) 0
  else
    ((vs.insertionSort (· ≤ ·)).getD ((vs.insertionSort (· ≤ ·)).length / 2 - 1) 0
      + (vs.insertionSort (· ≤ ·)).getD ((vs.insertionSort (· ≤ ·)).length / 2) 0) / 2

/-- Embeds pandas `"median"` aggregation (line 374): skips NaN; NaN when every value is
NaN. -/
def pandasMedian (xs : List (Option ℚ)) : Option ℚ :=
  if (xs.filterMap id).length = 0 then none else some (medianQ (xs.filterMap id))

/-- Modelled from the spec: `get_mad` (from `_distributed`, not under `src/`) is
a scaled median-absolute-deviation, `median(|x - median(x)|) / c` for a fixed
positive scaling constant `c` (statsmodels divides by the normal quantile
0.6745); `np.median` propagates NaN. -/
def madSpec (c : ℚ) (xs : List (Option ℚ)) : Option ℚ :=
  if xs.any (fun d => d.isNone) then none
  else if (xs.filterMap id).length = 0 then none
  else some (medianQ ((xs.filterMap id).map
      (fun v => |v - medianQ (xs.filterMap id)|)) / c)

/-- Embeds `_stats_cell_ranger` (lines 364–377): per-bin median (`avg`) and MAD
(`dev`); no single-gene-bin fallback is applied by this function. -/
def statsCellRanger (c : ℚ) (bins : List (List (Option ℚ))) : List BinStats :=
  bins.map (fun b => BinStats.mk (pandasMedian b) (madSpec c b))

/-- Faithful relational model of `np.argsort xs` as called with the source's
default sort kind (line 145): `p` lists the positions of `xs` in ascending
order of value. numpy's default introsort does not document any tie order, so
every permutation that sorts the values is an admissible output; only
`kind="stable"` (not used by the source) would fix ties by input position. -/
def isArgsortOf {α : Type} [LinearOrder α] [Inhabited α] (xs : List α) (p : List ℕ) : Prop :=
  List.Perm p (List.range xs.length)
  ∧ List.Pairwise (fun a b => xs.getD a default ≤ xs.getD b default) p

instance isArgsortOf_decidable {α : Type} [LinearOrder α] [Inhabited α] [DecidableEq α]
    (xs : List α) (p : List ℕ) : Decidable (isArgsortOf xs p) := by
  unfold isArgsortOf
  infer_instance

/-- Embeds lines 148–152 given a rank vector from line 145
(`np.argsort(np.argsort(-norm_gene_vars))`): ranks at or beyond `n_top_genes`
are replaced by NaN. -/
def seuratV3Ranks (ranks : List ℕ) (n_top_genes : ℕ) : List (Option ℕ) :=
  ranks.map (fun r => if r < n_top_genes then some r else none)

theorem get?_zipWith {α β γ : Type} (f : α → β → γ) (as : List α) (bs : List β) (i : ℕ)
    (a : α) (b : β) (ha : as.get? i = some a) (hb : bs.get? i = some b) :
    (List.zipWith f as bs).get? i = some (f a b) := by
  induction as generalizing bs i with
  | nil => simp at ha
  | cons x xs ih =>
    cases bs with
    | nil => simp at hb
    | cons y ys =>
      cases i with
      | zero => simp_all
      | succ n => simpa using ih ys n ha hb

/-- Claim C1: in interval mode (single-batch and batched), NaN normalized
dispersions are replaced by 0 before the interval predicate is evaluated, so no
NaN reaches the selection decision and a NaN-dispersion gene is selected iff 0
lies strictly inside the dispersion bounds and its mean strictly inside the mean
bounds. -/
theorem interval_nan_as_zero (c : Cutoffs) (means : List ℚ) (disp : List (Option ℚ))
    (g : ℕ) (m : ℚ) (hm : means.get? g = some m) (hd : disp.get? g = some none) :
    (subsetGenesInterval c means disp).get? g = some (c.in_bounds m 0)
    ∧ (batchedIntervalSelect c means disp).get? g = some (c.in_bounds m 0)
    ∧ (c.in_bounds m 0 = true
        ↔ (c.min_mean < m ∧ m < c.max_mean ∧ c.min_disp < 0 ∧ 0 < c.max_disp)) := by
  have hd0 : (disp.map nanToZero).get? g = some 0 := by
    rw [List.get?_map, hd]; rfl
  refine ⟨?_, ?_, ?_⟩
  · exact get?_zipWith _ _ _ _ _ _ hm hd0
  · exact get?_zipWith _ _ _ _ _ _ hm hd0
  · simp [Cutoffs.in_bounds, and_assoc]

/-- Witness for `interval_nan_as_zero` at a concrete input: one gene with mean
`1` and NaN dispersion, bounds `(-1, 2)` on dispersions and `(0, 3)` on means. -/
theorem interval_nan_as_zero_witness :
    ([(1 : ℚ)].get? 0 = some 1 ∧ [(none : Option ℚ)].get? 0 = some none)
    ∧ ((subsetGenesInterval ⟨-1, 2, 0, 3⟩ [1] [none]).get? 0
          = some ((⟨-1, 2, 0, 3⟩ : Cutoffs).in_bounds 1 0)
        ∧ (batchedIntervalSelect ⟨-1, 2, 0, 3⟩ [1] [none]).get? 0
          = some ((⟨-1, 2, 0, 3⟩ : Cutoffs).in_bounds 1 0)
        ∧ ((⟨-1, 2, 0, 3⟩ : Cutoffs).in_bounds 1 0 = true
            ↔ ((0 : ℚ) < 1 ∧ (1 : ℚ) < 3 ∧ (-1 : ℚ) < 0 ∧ (0 : ℚ) < 2))) :=
  ⟨⟨rfl, rfl⟩, by simpa using interval_nan_as_zero ⟨-1, 2, 0, 3⟩ [1] [none] 0 1 rfl rfl⟩

/-- Claim C3: interval-mode selection is exactly the conjunction of the four
strict inequalities (evaluated on the NaN→0-replaced dispersion), and widening
any bound never removes a gene from the selected set. -/
theorem interval_strict_and_monotone (c c' : Cutoffs) (means : List ℚ)
    (disp : List (Option ℚ)) (g : ℕ) (m : ℚ) (d : Option ℚ)
    (hm : means.get? g = some m) (hd : disp.get? g = some d) :
    ((subsetGenesInterval c means disp).get? g = some true
      ↔ (c.min_mean < m ∧ m < c.max_mean
          ∧ c.min_disp < nanToZero d ∧ nanToZero d < c.max_disp))
    ∧ (c'.min_mean ≤ c.min_mean → c.max_mean ≤ c'.max_mean →
       c'.min_disp ≤ c.min_disp → c.max_disp ≤ c'.max_disp →
       (subsetGenesInterval c means disp).get? g = some true →
       (subsetGenesInterval c' means disp).get? g = some true) := by
  have hd0 : (disp.map nanToZero).get? g = some (nanToZero d) := by
    rw [List.get?_map, hd]; rfl
  have h1 : (subsetGenesInterval c means disp).get? g = some (c.in_bounds m (nanToZero d)) :=
    get?_zipWith _ _ _ _ _ _ hm hd0
  have h2 : (subsetGenesInterval c' means disp).get? g = some (c'.in_bounds m (nanToZero d)) :=
    get?_zipWith _ _ _ _ _ _ hm hd0
  constructor
  · rw [h1]
    simp [Cutoffs.in_bounds, and_assoc]
  · intro hmm hxm hmd hxd hsel
    rw [h1] at hsel
    rw [h2]
    have hb : c.in_bounds m (nanToZero d) = true := by
      simpa using hsel
    have hb' : c'.in_bounds m (nanToZero d) = true := by
      simp only [Cutoffs.in_bounds, Bool.and_eq_true, decide_eq_true_eq] at hb ⊢
      exact ⟨⟨lt_of_le_of_lt hmm hb.1.1, lt_of_lt_of_le hb.1.2 hxm⟩,
             ⟨lt_of_le_of_lt hmd hb.2.1, lt_of_lt_of_le hb.2.2 hxd⟩⟩
    rw [hb']

/-- Witness for `interval_strict_and_monotone` at a concrete input: gene with
mean `1`, dispersion `3/2`, cutoffs `(1/2, 2, 0, 3)` widened to `(0, 5, -1, 4)`. -/
theorem interval_strict_and_monotone_witness :
    ([(1 : ℚ)].get? 0 = some 1 ∧ [(some (3/2) : Option ℚ)].get? 0 = some (some (3/2)))
    ∧ (((subsetGenesInterval ⟨1/2, 2, 0, 3⟩ [1] [some (3/2)]).get? 0 = some true
        ↔ ((0 : ℚ) < 1 ∧ (1 : ℚ) < 3
            ∧ (1/2 : ℚ) < nanToZero (some (3/2)) ∧ nanToZero (some (3/2)) < 2))
      ∧ ((-1 : ℚ) ≤ 0 → (3 : ℚ) ≤ 5 → (0 : ℚ) ≤ 1/2 → (2 : ℚ) ≤ 4 →
         (subsetGenesInterval ⟨1/2, 2, 0, 3⟩ [1] [some (3/2)]).get? 0 = some true →
         (subsetGenesInterval ⟨0, 4, -1, 5⟩ [1] [some (3/2)]).get? 0 = some true)) :=
  ⟨⟨rfl, rfl⟩, by
    simpa using interval_strict_and_monotone ⟨1/2, 2, 0, 3⟩ ⟨0, 4, -1, 5⟩ [1] [some (3/2)] 0 1
      (some (3/2)) rfl rfl⟩

theorem sortDesc_perm (xs : List ℚ) : List.Perm (sortDesc xs) xs :=
  List.perm_insertionSort _ xs

theorem sortDesc_sorted (xs : List ℚ) : List.Sorted (· ≥ ·) (sortDesc xs) :=
  List.sorted_insertionSort _ xs

theorem sortDesc_length (xs : List ℚ) : (sortDesc xs).length = xs.length :=
  (sortDesc_perm xs).length_eq

theorem finiteVals_length_le (disp : List (Option ℚ)) :
    (finiteVals disp).length ≤ disp.length :=
  List.length_filterMap_le id disp

theorem countSel_map (l : List (Option ℚ)) (p : Option ℚ → Bool) :
    countSel (l.map p) = l.countP p := by
  rw [countSel, List.countP_map]; rfl

theorem countP_nan_split_pos (disp : List (Option ℚ)) (t : ℚ) (h : t ≤ 0) :
    disp.countP (fun d => decide (nanToZero d ≥ t))
      = (finiteVals disp).countP (fun v => decide (v ≥ t))
        + disp.countP (fun d => d.isNone) := by
  induction disp with
  | nil => simp [finiteVals]
  | cons d ds ih =>
    cases d with
    | none =>
      have h2 : finiteVals ((none : Option ℚ) :: ds) = finiteVals ds := rfl
      rw [List.countP_cons, h2, ih, List.countP_cons]
      simp [nanToZero, h]
      omega
    | some v =>
      have h2 : finiteVals (some v :: ds) = v :: finiteVals ds := rfl
      rw [List.countP_cons, h2, ih, List.countP_cons, List.countP_cons]
      simp [nanToZero]
      by_cases hv : t ≤ v <;> simp [hv] <;> omega

theorem countP_nan_split_neg (disp : List (Option ℚ)) (t : ℚ) (h : ¬ (t ≤ 0)) :
    disp.countP (fun d => decide (nanToZero d ≥ t))
      = (finiteVals disp).countP (fun v => decide (v ≥ t)) := by
  induction disp with
  | nil => simp [finiteVals]
  | cons d ds ih =>
    cases d with
    | none =>
      have h2 : finiteVals ((none : Option ℚ) :: ds) = finiteVals ds := rfl
      rw [List.countP_cons, h2, ih]
      simp [nanToZero, h]
    | some v =>
      have h2 : finiteVals (some v :: ds) = v :: finiteVals ds := rfl
      rw [List.countP_cons, h2, ih, List.countP_cons]
      rfl

theorem sorted_take_drop_bounds (s : List ℚ) (hs : List.Sorted (· ≥ ·) s) (m : ℕ)
    (hm1 : 1 ≤ m) (hml : m ≤ s.length) (t : ℚ) (ht : s.get? (m - 1) = some t) :
    (∀ x ∈ s.take m, t ≤ x) ∧ (∀ x ∈ s.drop m, x ≤ t) := by
  have hlt : m - 1 < s.length := by omega
  have htg : s.get ⟨m - 1, hlt⟩ = t := by
    rw [List.get?_eq_get hlt] at ht
    exact Option.some.inj ht
  constructor
  · intro x hx
    obtain ⟨i, hig⟩ := List.mem_iff_get.mp hx
    have hi2 : (i : ℕ) < m ∧ (i : ℕ) < s.length := by
      have := i.2
      simp only [List.length_take] at this
      omega
    have hxg : x = s.get ⟨(i : ℕ), hi2.2⟩ := by
      rw [← hig]
      simp [List.get_take]
    rcases Nat.lt_or_ge (i : ℕ) (m - 1) with hcase | hcase
    · have := List.Sorted.rel_get_of_lt hs
        (show (⟨(i : ℕ), hi2.2⟩ : Fin s.length) < ⟨m - 1, hlt⟩ from hcase)
      rw [htg] at this
      rw [hxg]; exact this
    · have hieq : (i : ℕ) = m - 1 := by omega
      rw [hxg]
      simp only [hieq, htg]
      exact le_rfl
  · intro x hx
    obtain ⟨i, hig⟩ := List.mem_iff_get.mp hx
    have hi2 : m + (i : ℕ) < s.length := by
      have := i.2
      simp only [List.length_drop] at this
      omega
    have hxg : x = s.get ⟨m + (i : ℕ), hi2⟩ := by
      rw [← hig]
      simp [List.get_drop]
    have := List.Sorted.rel_get_of_lt hs
      (show (⟨m - 1, hlt⟩ : Fin s.length) < ⟨m + (i : ℕ), hi2⟩ from by
        simp only [Fin.mk_lt_mk]; omega)
    rw [htg] at this
    rw [hxg]; exact this

theorem sorted_countP_ge (s : List ℚ) (hs : List.Sorted (· ≥ ·) s) (m : ℕ)
    (hm1 : 1 ≤ m) (hml : m ≤ s.length) (t : ℚ) (ht : s.get? (m - 1) = some t) :
    m ≤ s.countP (fun v => decide (v ≥ t)) := by
  obtain ⟨htake, _⟩ := sorted_take_drop_bounds s hs m hm1 hml t ht
  have hsplit : s.countP (fun v => decide (v ≥ t))
      = (s.take m).countP (fun v => decide (v ≥ t))
        + (s.drop m).countP (fun v => decide (v ≥ t)) := by
    conv_lhs => rw [← List.take_append_drop m s]
    exact List.countP_append _ _ _
  have htk : (s.take m).countP (fun v => decide (v ≥ t)) = (s.take m).length :=
    List.countP_eq_length.mpr (fun x hx => by simpa using htake x hx)
  have hlen : (s.take m).length = m := by
    simp only [List.length_take]
    omega
  omega

theorem sorted_countP_eq (s : List ℚ) (hs : List.Sorted (· ≥ ·) s) (m : ℕ)
    (hm1 : 1 ≤ m) (hml : m ≤ s.length) (t : ℚ) (ht : s.get? (m - 1) = some t)
    (hc : s.count t ≤ 1) :
    s.countP (fun v => decide (v ≥ t)) = m := by
  obtain ⟨htake, hdrop⟩ := sorted_take_drop_bounds s hs m hm1 hml t ht
  have hlt : m - 1 < s.length := by omega
  have htmem : t ∈ s.take m := by
    have hmem : s.get ⟨m - 1, hlt⟩ ∈ s.take m := by
      have hidx : m - 1 < (s.take m).length := by
        simp only [List.length_take]; omega
      refine List.mem_iff_get.mpr ⟨⟨m - 1, hidx⟩, ?_⟩
      simp [List.get_take]
    have htg : s.get ⟨m - 1, hlt⟩ = t := by
      rw [List.get?_eq_get hlt] at ht
      exact Option.some.inj ht
    rwa [htg] at hmem
  have hcount : s.count t = (s.take m).count t + (s.drop m).count t := by
    conv_lhs => rw [← List.take_append_drop m s]
    exact List.count_append _ _ _
  have htpos : 0 < (s.take m).count t := List.count_pos_iff.mpr htmem
  have hdrop0 : (s.drop m).countP (fun v => decide (v ≥ t)) = 0 := by
    refine List.countP_eq_zero.mpr (fun x hx => ?_)
    have hxle : x ≤ t := hdrop x hx
    have hxne : x ≠ t := by
      intro he
      have : 0 < (s.drop m).count t := List.count_pos_iff.mpr (he ▸ hx)
      omega
    simp only [decide_eq_true_eq, ge_iff_le]
    intro hge
    exact hxne (le_antisymm hxle hge)
  have hsplit : s.countP (fun v => decide (v ≥ t))
      = (s.take m).countP (fun v => decide (v ≥ t))
        + (s.drop m).countP (fun v => decide (v ≥ t)) := by
    conv_lhs => rw [← List.take_append_drop m s]
    exact List.countP_append _ _ _
  have htk : (s.take m).countP (fun v => decide (v ≥ t)) = (s.take m).length :=
    List.countP_eq_length.mpr (fun x hx => by simpa using htake x hx)
  have hlen : (s.take m).length = m := by
    simp only [List.length_take]
    omega
  omega

theorem subsetGenesTopN_eq (disp : List (Option ℚ)) (nTop : ℕ) (t : ℚ)
    (hm1 : 1 ≤ min nTop (finiteVals disp).length)
    (ht : (sortDesc (finiteVals disp)).get?
        (min nTop (finiteVals disp).length - 1) = some t) :
    subsetGenesTopN disp nTop
      = some (disp.map (fun d => decide (nanToZero d ≥ t)),
              decide ((finiteVals disp).length < min nTop disp.length)) := by
  have hle := finiteVals_length_le disp
  have hmin : min (min nTop disp.length) (finiteVals disp).length
      = min nTop (finiteVals disp).length := by omega
  unfold subsetGenesTopN nthHighest
  rw [hmin, if_neg (by omega), ht]
  rfl

/-- Claim C2 counterexample: with dispersions `[NaN, NaN, 5]` and `N = 3`, the
top-N selection selects only 1 gene, strictly fewer than
`min(N, gene count) = 3` (the threshold is clamped to the single finite value),
refuting the claimed lower bound on the selected count. -/
theorem topn_count_cex :
    subsetGenesTopN [none, none, some 5] 3
      = some ([false, false, true], true)
    ∧ countSel [false, false, true]
        < min 3 ([none, none, some 5] : List (Option ℚ)).length := by
  constructor
  · rfl
  · decide

/-- Claim C2 (amended): in single-batch top-N mode with
`m := min(N, number of finite normalized dispersions) ≥ 1`, the selection flag
equals `(dispersion with NaN replaced by 0) >= t` where `t` is the `m`-th
highest finite normalized dispersion; the selected count is at least `m`, and
equals `m` whenever the threshold is positive and at most one gene attains it. -/
theorem topn_selection_and_count (disp : List (Option ℚ)) (nTop : ℕ) (t : ℚ)
    (hm1 : 1 ≤ min nTop (finiteVals disp).length)
    (ht : (sortDesc (finiteVals disp)).get?
        (min nTop (finiteVals disp).length - 1) = some t) :
    subsetGenesTopN disp nTop
      = some (disp.map (fun d => decide (nanToZero d ≥ t)),
              decide ((finiteVals disp).length < min nTop disp.length))
    ∧ min nTop (finiteVals disp).length
        ≤ countSel (disp.map (fun d => decide (nanToZero d ≥ t)))
    ∧ (0 < t → (finiteVals disp).count t ≤ 1 →
        countSel (disp.map (fun d => decide (nanToZero d ≥ t)))
          = min nTop (finiteVals disp).length) := by
  have hle : (finiteVals disp).length ≤ disp.length := finiteVals_length_le disp
  have hml : min nTop (finiteVals disp).length ≤ (sortDesc (finiteVals disp)).length := by
    rw [sortDesc_length]; omega
  have hsorted := sortDesc_sorted (finiteVals disp)
  have hperm := sortDesc_perm (finiteVals disp)
  have hgeS := sorted_countP_ge _ hsorted _ hm1 hml t ht
  have hgeX : min nTop (finiteVals disp).length
      ≤ (finiteVals disp).countP (fun v => decide (v ≥ t)) := by
    rwa [hperm.countP_eq] at hgeS
  have hcount : countSel (disp.map (fun d => decide (nanToZero d ≥ t)))
      = disp.countP (fun d => decide (nanToZero d ≥ t)) := countSel_map disp _
  refine ⟨subsetGenesTopN_eq disp nTop t hm1 ht, ?_, ?_⟩
  · rw [hcount]
    by_cases h0 : t ≤ 0
    · rw [countP_nan_split_pos disp t h0]; omega
    · rw [countP_nan_split_neg disp t h0]; exact hgeX
  · intro htpos hcnt
    have h0 : ¬ (t ≤ 0) := not_le.mpr htpos
    rw [hcount, countP_nan_split_neg disp t h0]
    have hcntS : (sortDesc (finiteVals disp)).count t ≤ 1 := by rwa [hperm.count_eq]
    have he := sorted_countP_eq _ hsorted _ hm1 hml t ht hcntS
    rwa [hperm.countP_eq] at he

/-- Witness for `topn_selection_and_count`: one gene with dispersion `2`,
`N = 1`; the threshold is `2` and exactly one gene is selected. -/
theorem topn_selection_and_count_witness :
    (1 ≤ min 1 (finiteVals [some 2]).length
      ∧ (sortDesc (finiteVals [some 2])).get?
          (min 1 (finiteVals [some 2]).length - 1) = some 2)
    ∧ (subsetGenesTopN [some 2] 1
        = some (([some 2] : List (Option ℚ)).map (fun d => decide (nanToZero d ≥ 2)),
                decide ((finiteVals [some 2]).length
                  < min 1 ([some 2] : List (Option ℚ)).length))
      ∧ min 1 (finiteVals [some 2]).length
          ≤ countSel (([some 2] : List (Option ℚ)).map (fun d => decide (nanToZero d ≥ 2)))
      ∧ ((0 : ℚ) < 2 → (finiteVals [some 2]).count 2 ≤ 1 →
          countSel (([some 2] : List (Option ℚ)).map (fun d => decide (nanToZero d ≥ 2)))
            = min 1 (finiteVals [some 2]).length)) :=
  ⟨⟨by decide, by decide⟩, topn_selection_and_count [some 2] 1 2 (by decide) (by decide)⟩

/-- Claim C9 counterexample: when every normalized dispersion is NaN, requesting
`N = 1 > 0` finite values makes `_nth_highest` index an empty array, raising
`IndexError` (modelled as `none`): the operation fails rather than warn-and-clamp. -/
theorem topn_allnan_error_cex :
    (finiteVals [none, none]).length < min 1 ([none, none] : List (Option ℚ)).length
    ∧ subsetGenesTopN [none, none] 1 = none := by
  decide

/-- Claim C9 (amended): if at least one normalized dispersion is finite and the
(gene-count-clamped) requested N exceeds the number of finite values, the
operation does not fail: the warning flag is set, N is clamped to the finite
count, and every gene with a finite normalized dispersion is selected. -/
theorem topn_clamp_warn (disp : List (Option ℚ)) (nTop : ℕ)
    (h1 : 1 ≤ (finiteVals disp).length)
    (h2 : (finiteVals disp).length < min nTop disp.length) :
    ∃ t : ℚ,
      subsetGenesTopN disp nTop
        = some (disp.map (fun d => decide (nanToZero d ≥ t)), true)
      ∧ ∀ g v, disp.get? g = some (some v) →
          (disp.map (fun d => decide (nanToZero d ≥ t))).get? g = some true := by
  have hle : (finiteVals disp).length ≤ disp.length := finiteVals_length_le disp
  have hm : min nTop (finiteVals disp).length = (finiteVals disp).length := by omega
  have hm1 : 1 ≤ min nTop (finiteVals disp).length := by omega
  have hml : (finiteVals disp).length - 1 < (sortDesc (finiteVals disp)).length := by
    rw [sortDesc_length]; omega
  obtain ⟨t, ht⟩ : ∃ t, (sortDesc (finiteVals disp)).get?
      ((finiteVals disp).length - 1) = some t :=
    ⟨_, List.get?_eq_get hml⟩
  have ht' : (sortDesc (finiteVals disp)).get?
      (min nTop (finiteVals disp).length - 1) = some t := by rw [hm]; exact ht
  refine ⟨t, ?_, ?_⟩
  · rw [subsetGenesTopN_eq disp nTop t hm1 ht', decide_eq_true h2]
  · intro g v hg
    have hsorted := sortDesc_sorted (finiteVals disp)
    have hperm := sortDesc_perm (finiteVals disp)
    have hmin : ∀ x ∈ sortDesc (finiteVals disp), t ≤ x := by
      have hlen : (finiteVals disp).length ≤ (sortDesc (finiteVals disp)).length := by
        rw [sortDesc_length]
      have hbounds := sorted_take_drop_bounds _ hsorted ((finiteVals disp).length)
        h1 hlen t ht
      intro x hx
      refine hbounds.1 x ?_
      rwa [List.take_of_length_le (le_of_eq (sortDesc_length _))]
    have hv : t ≤ v := by
      have hvmem : v ∈ finiteVals disp := by
        have hmem : (some v : Option ℚ) ∈ disp := List.get?_mem hg
        exact List.mem_filterMap.mpr ⟨some v, hmem, rfl⟩
      exact hmin v (hperm.mem_iff.mpr hvmem)
    rw [List.get?_map, hg]
    simp [nanToZero, hv]

/-- Witness for `topn_clamp_warn`: dispersions `[2, NaN]`, `N = 5`: the single
finite gene is selected and the warning flag is set. -/
theorem topn_clamp_warn_witness :
    (1 ≤ (finiteVals [some 2, none]).length
      ∧ (finiteVals [some 2, none]).length
          < min 5 ([some 2, none] : List (Option ℚ)).length)
    ∧ (∃ t : ℚ,
        subsetGenesTopN [some 2, none] 5
          = some (([some 2, none] : List (Option ℚ)).map
                (fun d => decide (nanToZero d ≥ t)), true)
        ∧ ∀ g v, ([some 2, none] : List (Option ℚ)).get? g = some (some v) →
            (([some 2, none] : List (Option ℚ)).map
                (fun d => decide (nanToZero d ≥ t))).get? g = some true) :=
  ⟨⟨by decide, by decide⟩, topn_clamp_warn [some 2, none] 5 (by decide) (by decide)⟩

/-- Claim C10: in single-batch top-N mode a NaN-dispersion gene can be selected:
NaNs are converted to 0 right before the threshold comparison, so when the N-th
highest finite normalized dispersion `t` satisfies `t ≤ 0`, every NaN gene is
flagged and the selected count strictly exceeds N. -/
theorem topn_nan_gene_selected (disp : List (Option ℚ)) (nTop g : ℕ) (t : ℚ)
    (h1 : 1 ≤ nTop) (h2 : nTop ≤ (finiteVals disp).length)
    (h3 : disp.get? g = some none)
    (h4 : (sortDesc (finiteVals disp)).get? (nTop - 1) = some t)
    (h5 : t ≤ 0) :
    subsetGenesTopN disp nTop
      = some (disp.map (fun d => decide (nanToZero d ≥ t)),
              decide ((finiteVals disp).length < min nTop disp.length))
    ∧ (disp.map (fun d => decide (nanToZero d ≥ t))).get? g = some true
    ∧ nTop < countSel (disp.map (fun d => decide (nanToZero d ≥ t))) := by
  have hle : (finiteVals disp).length ≤ disp.length := finiteVals_length_le disp
  have hm : min nTop (finiteVals disp).length = nTop := by omega
  have hm1 : 1 ≤ min nTop (finiteVals disp).length := by omega
  have ht' : (sortDesc (finiteVals disp)).get?
      (min nTop (finiteVals disp).length - 1) = some t := by rw [hm]; exact h4
  have hml : min nTop (finiteVals disp).length ≤ (sortDesc (finiteVals disp)).length := by
    rw [sortDesc_length]; omega
  have hsorted := sortDesc_sorted (finiteVals disp)
  have hperm := sortDesc_perm (finiteVals disp)
  have hgeS := sorted_countP_ge _ hsorted _ hm1 hml t ht'
  have hgeX : nTop ≤ (finiteVals disp).countP (fun v => decide (v ≥ t)) := by
    rw [hperm.countP_eq] at hgeS
    omega
  refine ⟨subsetGenesTopN_eq disp nTop t hm1 ht', ?_, ?_⟩
  · rw [List.get?_map, h3]
    simp [nanToZero, h5]
  · have hnan : 1 ≤ disp.countP (fun d => d.isNone) := by
      have hmem : (none : Option ℚ) ∈ disp := List.get?_mem h3
      have hpos : 0 < disp.countP (fun d => d.isNone) :=
        List.countP_pos_iff.mpr ⟨none, hmem, by simp⟩
      omega
    rw [countSel_map, countP_nan_split_pos disp t h5]
    omega

/-- Witness for `topn_nan_gene_selected`: dispersions `[0, NaN, -1]`, `N = 2`:
the threshold is `-1 ≤ 0`, the NaN gene is selected and 3 > 2 genes are flagged. -/
theorem topn_nan_gene_selected_witness :
    (1 ≤ 2 ∧ 2 ≤ (finiteVals [some 0, none, some (-1)]).length
      ∧ ([some 0, none, some (-1)] : List (Option ℚ)).get? 1 = some none
      ∧ (sortDesc (finiteVals [some 0, none, some (-1)])).get? (2 - 1) = some (-1)
      ∧ (-1 : ℚ) ≤ 0)
    ∧ (subsetGenesTopN [some 0, none, some (-1)] 2
        = some (([some 0, none, some (-1)] : List (Option ℚ)).map
                  (fun d => decide (nanToZero d ≥ (-1))),
                decide ((finiteVals [some 0, none, some (-1)]).length
                  < min 2 ([some 0, none, some (-1)] : List (Option ℚ)).length))
      ∧ (([some 0, none, some (-1)] : List (Option ℚ)).map
            (fun d => decide (nanToZero d ≥ (-1)))).get? 1 = some true
      ∧ 2 < countSel (([some 0, none, some (-1)] : List (Option ℚ)).map
            (fun d => decide (nanToZero d ≥ (-1))))) :=
  ⟨⟨by decide, by decide, by decide, by decide, by decide⟩,
    topn_nan_gene_selected [some 0, none, some (-1)] 2 1 (-1)
      (by decide) (by decide) (by decide) (by decide) (by decide)⟩

theorem sum_map_sq_sub (l : List ℚ) (m : ℚ) :
    (l.map (fun c => (c - m) ^ 2)).sum
      = (l.map (fun c => c ^ 2)).sum - 2 * l.sum * m + (l.length : ℚ) * m ^ 2 := by
  induction l with
  | nil => simp
  | cons a l ih =>
    simp only [List.map_cons, List.sum_cons, List.length_cons, ih]
    push_cast
    ring

theorem sum_map_div_sq (l : List ℚ) (m r : ℚ) :
    (l.map (fun c => ((c - m) / r) ^ 2)).sum
      = (l.map (fun c => (c - m) ^ 2)).sum / r ^ 2 := by
  induction l with
  | nil => simp
  | cons a l ih =>
    simp only [List.map_cons, List.sum_cons, ih]
    rw [div_pow, div_add_div_same]

/-- Claim C4: for flavor `seurat_v3`, each cell's count is clipped at
`reg_std * vmax + mean` (`vmax = sqrt(n_cells_in_batch)`), and the normalized
variance computed analytically from the clipped sums — the code's
`(1/((N-1)*reg_std^2)) * (N*mean^2 + Σ clipped^2 - 2*mean*Σ clipped)` — equals
the variance of the re-materialized z-scored clipped counts
`(1/(N-1)) * Σ ((clipped - mean)/reg_std)^2`. -/
theorem seurat_v3_clip_and_norm_var (counts : List ℚ) (reg_std vmax mean : ℚ) :
    (∀ g x, counts.get? g = some x →
      (clipCounts counts reg_std vmax mean).get? g
        = some (if x > reg_std * vmax + mean then reg_std * vmax + mean else x))
    ∧ normGeneVar counts reg_std vmax mean
        = (1 / (((counts.length : ℚ) - 1) * reg_std ^ 2))
            * ((counts.length : ℚ) * mean ^ 2
                + ((clipCounts counts reg_std vmax mean).map (fun c => c ^ 2)).sum
                - 2 * (clipCounts counts reg_std vmax mean).sum * mean)
    ∧ normGeneVar counts reg_std vmax mean
        = (1 / ((counts.length : ℚ) - 1))
            * ((clipCounts counts reg_std vmax mean).map
                (fun c => ((c - mean) / reg_std) ^ 2)).sum := by
  refine ⟨?_, rfl, ?_⟩
  · intro g x hg
    rw [clipCounts, List.get?_map, hg]
    rfl
  · rw [normGeneVar, sum_map_div_sq, sum_map_sq_sub]
    have hlen : ((clipCounts counts reg_std vmax mean).length : ℚ) = (counts.length : ℚ) := by
      rw [clipCounts, List.length_map]
    rw [hlen, one_div, one_div, mul_inv, div_eq_mul_inv]
    ring

/-- Witness for `seurat_v3_clip_and_norm_var` at counts `[3, 0, 7]`,
`reg_std = 1`, `vmax = 2`, `mean = 2` (clip value `4`). -/
theorem seurat_v3_clip_and_norm_var_witness :
    (([3, 0, 7] : List ℚ).get? 0 = some 3
      ∧ (clipCounts [3, 0, 7] 1 2 2).get? 0
          = some (if (3 : ℚ) > 1 * 2 + 2 then 1 * 2 + 2 else 3))
    ∧ normGeneVar [3, 0, 7] 1 2 2
        = (1 / ((([3, 0, 7] : List ℚ).length : ℚ) - 1))
            * ((clipCounts [3, 0, 7] 1 2 2).map
                (fun c => ((c - 2) / 1) ^ 2)).sum :=
  ⟨⟨rfl, (seurat_v3_clip_and_norm_var [3, 0, 7] 1 2 2).1 0 3 rfl⟩,
    (seurat_v3_clip_and_norm_var [3, 0, 7] 1 2 2).2.2⟩

theorem estimatVar_length (var fitted : List ℚ) :
    (estimatVar var fitted).length = var.length := by
  induction var generalizing fitted with
  | nil => rfl
  | cons v vs ih =>
    by_cases h : 0 < v
    · cases fitted with
      | nil => simp [estimatVar, h, ih]
      | cons f fs => simp [estimatVar, h, ih]
    · simp [estimatVar, h, ih]

theorem estimatVar_zero_var (var fitted : List ℚ) (g : ℕ)
    (hg : var.get? g = some 0) :
    (estimatVar var fitted).get? g = some 0 := by
  induction var generalizing fitted g with
  | nil => simp at hg
  | cons v vs ih =>
    cases g with
    | zero =>
      have hv : v = 0 := by simpa using hg
      subst hv
      simp [estimatVar]
    | succ n =>
      have hg' : vs.get? n = some 0 := by simpa using hg
      by_cases h : 0 < v
      · cases fitted with
        | nil => simpa [estimatVar, h] using ih [] n hg'
        | cons f fs => simpa [estimatVar, h] using ih fs n hg'
      · simpa [estimatVar, h] using ih fitted n hg'

/-- Claim C7: for flavor `seurat_v3`, a gene whose within-batch variance is zero is
excluded from the loess fit input (`not_const = var > 0`), receives an estimated
variance of 0, and remains present in the per-batch output (the output has one
entry per gene). -/
theorem zero_variance_gene_fallback (var fitted : List ℚ) (g : ℕ) :
    (estimatVar var fitted).length = var.length
    ∧ (var.get? g = some 0 →
        (estimatVar var fitted).get? g = some 0 ∧ g ∉ notConstIdx var) := by
  refine ⟨estimatVar_length var fitted, fun hg => ⟨estimatVar_zero_var var fitted g hg, ?_⟩⟩
  intro hmem
  rw [notConstIdx, List.mem_filter] at hmem
  have hv : var.getD g 0 = 0 := by
    obtain ⟨hlt, hget⟩ := List.get?_eq_some.mp hg
    rw [List.getD_eq_get _ _ hlt] at *
    exact hget
  rw [hv] at hmem
  simpa using hmem.2

/-- Witness for `zero_variance_gene_fallback` at variances `[0, 2]` with a
single fitted value `[5]` for the positive-variance gene, checking gene 0. -/
theorem zero_variance_gene_fallback_witness :
    (estimatVar [0, 2] [5]).length = ([0, 2] : List ℚ).length
    ∧ (([0, 2] : List ℚ).get? 0 = some 0 →
        (estimatVar [0, 2] [5]).get? 0 = some 0 ∧ 0 ∉ notConstIdx [0, 2]) :=
  zero_variance_gene_fallback [0, 2] [5] 0

theorem range_filter_beq_nil (n g : ℕ) (h : n ≤ g) :
    (List.range n).filter (fun i => i == g) = [] := by
  rw [List.filter_eq_nil_iff]
  intro a ha
  have := List.mem_range.mp ha
  simp only [beq_iff_eq]
  omega

theorem range_filter_beq (n g : ℕ) (h : g < n) :
    (List.range n).filter (fun i => i == g) = [g] := by
  induction n with
  | zero => omega
  | succ n ih =>
    rw [List.range_succ, List.filter_append]
    rcases Nat.lt_or_ge g n with hg | hg
    · have hne : (n == g) = false := by
        simp only [beq_eq_false_iff_ne, ne_eq]
        omega
      rw [ih hg]
      simp [List.filter_cons, hne]
    · have hgn : n = g := by omega
      rw [range_filter_beq_nil n g hg, hgn]
      simp [List.filter_cons]

theorem batchRows_group (sel : List Bool) (g : ℕ) (hg : g < sel.length) :
    (((batchRows sel).filter (fun r => r.1 == g)).map (fun r => r.2)).sum
      = (if sel.getD g false then 1 else 0) := by
  have h1 : (batchRows sel).filter (fun r => r.1 == g)
      = ((List.range sel.length).filter (fun i => i == g)).map
          (fun i => (i, if sel.getD i false then 1 else 0)) := by
    rw [batchRows, List.filter_map]
    rfl
  rw [h1, range_filter_beq _ _ hg]
  simp

theorem groupSumSel_count (sels : List (List Bool)) (g n : ℕ)
    (hlen : ∀ b ∈ sels, b.length = n) (hg : g < n) :
    groupSumSel sels g = (sels.filter (fun b => b.getD g false)).length := by
  induction sels with
  | nil => rfl
  | cons b bs ih =>
    have hb : b.length = n := hlen b (List.mem_cons_self b bs)
    have hsplit : groupSumSel (b :: bs) g
        = (((batchRows b).filter (fun r => r.1 == g)).map (fun r => r.2)).sum
          + groupSumSel bs g := by
      rw [groupSumSel, concatRows, List.flatMap_cons, List.filter_append, List.map_append,
        List.sum_append]
      rfl
    rw [hsplit, batchRows_group b g (by omega),
      ih (fun x hx => hlen x (List.mem_cons_of_mem b hx)), List.filter_cons]
    by_cases hbg : b.getD g false = true
    · rw [if_pos hbg, if_pos hbg, List.length_cons]
      omega
    · rw [if_neg hbg, if_neg hbg]
      omega

/-- Claim C8: for a batched dispersion-based run over `K` batches (each spanning
the full gene universe), `highly_variable_nbatches` of gene `g` equals the
number of batches in which `g` was selected, lies in `[0, K]`, and
`highly_variable_intersection` holds iff it equals `K`. -/
theorem batched_nbatches_intersection (sels : List (List Bool)) (g n : ℕ)
    (hlen : ∀ b ∈ sels, b.length = n) (hg : g < n) :
    highlyVariableNbatches sels g
        = (sels.filter (fun b => b.getD g false)).length
    ∧ highlyVariableNbatches sels g ≤ sels.length
    ∧ (highlyVariableIntersection sels g = true
        ↔ highlyVariableNbatches sels g = sels.length) := by
  have hc := groupSumSel_count sels g n hlen hg
  refine ⟨hc, ?_, ?_⟩
  · rw [highlyVariableNbatches, hc]
    exact List.length_filter_le _ _
  · rw [highlyVariableIntersection]
    exact beq_iff_eq

/-- Witness for `batched_nbatches_intersection`: two batches over one gene,
selected in the first only: `nbatches = 1`, no intersection. -/
theorem batched_nbatches_intersection_witness :
    ((∀ b ∈ [[true], [false]], b.length = 1) ∧ 0 < 1)
    ∧ (highlyVariableNbatches [[true], [false]] 0
          = ([[true], [false]].filter (fun b => b.getD 0 false)).length
      ∧ highlyVariableNbatches [[true], [false]] 0 ≤ ([[true], [false]] : List (List Bool)).length
      ∧ (highlyVariableIntersection [[true], [false]] 0 = true
          ↔ highlyVariableNbatches [[true], [false]] 0
              = ([[true], [false]] : List (List Bool)).length)) :=
  ⟨⟨by decide, by decide⟩,
    batched_nbatches_intersection [[true], [false]] 0 1 (by decide) (by decide)⟩

theorem npStdDdof1_singleton (sqrtFn : ℚ → ℚ) (b : List (Option ℚ))
    (hlen : b.length = 1) : npStdDdof1 sqrtFn b = none := by
  match b, hlen with
  | [d], _ =>
    cases d with
    | none => simp [npStdDdof1]
    | some v => simp [npStdDdof1]

/-- Claim C6 (amended): in `_stats_seurat` (flavor `seurat`), every bin containing
exactly one gene has NaN sample standard deviation (`ddof=1` on one value),
hence receives the fallback `dev := avg` (the bin's original location) and
`avg := 0`, and the diagnostic flag fires; no error is raised (the function is
total). Flavor `cell_ranger` applies no such fallback — see
`cell_ranger_singleton_no_fallback_cex`. -/
theorem seurat_singleton_bin_fallback (sqrtFn : ℚ → ℚ) (bins : List (List (Option ℚ)))
    (i : ℕ) (b : List (Option ℚ)) (hb : bins.get? i = some b) (hlen : b.length = 1) :
    (statsSeurat sqrtFn bins).1.get? i
        = some (BinStats.mk (some 0) (pandasMean b))
    ∧ (statsSeurat sqrtFn bins).2 = true := by
  have hstd : npStdDdof1 sqrtFn b = none := npStdDdof1_singleton sqrtFn b hlen
  constructor
  · rw [statsSeurat]
    rw [List.get?_map, hb]
    simp [hstd]
  · rw [statsSeurat]
    have hmem : b ∈ bins := List.get?_mem hb
    simp only [List.any_eq_true]
    exact ⟨b, hmem, by rw [hstd]; rfl⟩

/-- Witness for `seurat_singleton_bin_fallback`: a single bin holding one gene
with dispersion `2`: its stats become `avg = 0`, `dev = 2` and the diagnostic
fires. -/
theorem seurat_singleton_bin_fallback_witness :
    (([[some 2]] : List (List (Option ℚ))).get? 0 = some [some 2]
      ∧ ([some 2] : List (Option ℚ)).length = 1)
    ∧ ((statsSeurat id [[some 2]]).1.get? 0
          = some (BinStats.mk (some 0) (pandasMean [some 2]))
      ∧ (statsSeurat id [[some 2]]).2 = true) :=
  ⟨⟨rfl, rfl⟩, seurat_singleton_bin_fallback id [[some 2]] 0 [some 2] rfl rfl⟩

/-- Claim C6 counterexample: a single-gene bin with dispersion `2` under flavor
`cell_ranger` keeps `avg = 2` (the median) and gets `dev = 0` (the MAD of a
singleton is 0); the claimed fallback would instead give `avg = 0`, `dev = 2` —
`_stats_cell_ranger` has no single-gene-bin fallback or diagnostic. -/
theorem cell_ranger_singleton_no_fallback_cex :
    statsCellRanger (6745/10000) [[some 2]] = [BinStats.mk (some 2) (some 0)]
    ∧ statsCellRanger (6745/10000) [[some 2]] ≠ [BinStats.mk (some 0) (some 2)] := by
  have h : statsCellRanger (6745/10000) [[some 2]] = [BinStats.mk (some 2) (some 0)] := by
    rw [statsCellRanger]
    simp only [List.map_cons, List.map_nil]
    norm_num [madSpec, pandasMedian, medianQ, List.filterMap]
  refine ⟨h, ?_⟩
  rw [h]
  intro hcon
  have := List.head_eq_of_cons_eq hcon
  simp at this

theorem map_getD_range {α : Type} (l : List α) (d : α) :
    (List.range l.length).map (fun i => l.getD i d) = l := by
  induction l with
  | nil => rfl
  | cons a t ih =>
    rw [List.length_cons, List.range_succ_eq_map, List.map_cons, List.map_map]
    have h2 : (List.range t.length).map ((fun i => (a :: t).getD i d) ∘ Nat.succ)
        = (List.range t.length).map (fun i => t.getD i d) := rfl
    rw [h2, ih]
    rfl


theorem getD_map_in {α β : Type} (l : List α) (f : α → β) (k : ℕ) (d : β) (d' : α)
    (hk : k < l.length) : (l.map f).getD k d = f (l.getD k d') := by
  induction l generalizing k with
  | nil => simp at hk
  | cons a t ih =>
    cases k with
    | zero => rfl
    | succ m => exact ih m (by simpa using hk)

theorem getD_sortperm_inverse (p : List ℕ) (n : ℕ) (hp : List.Perm p (List.range n))
    (q : List ℕ) (hq : isArgsortOf p q) (k : ℕ) (hk : k < n) :
    p.getD (q.getD k 0) 0 = k := by
  have hlen : p.length = n := by rw [hp.length_eq, List.length_range]
  have hqperm : List.Perm q (List.range n) := by
    have h := hq.1
    rwa [hlen] at h
  have hqlen : q.length = n := by rw [hqperm.length_eq, List.length_range]
  have hqnodup : q.Nodup := hqperm.nodup_iff.mpr (List.nodup_range n)
  have hpnodup : p.Nodup := hp.nodup_iff.mpr (List.nodup_range n)
  have hsperm : List.Perm (q.map (fun i => p.getD i 0)) (List.range n) := by
    have h1 : List.Perm (q.map (fun i => p.getD i 0))
        ((List.range p.length).map (fun i => p.getD i 0)) :=
      List.Perm.map _ hq.1
    rw [map_getD_range] at h1
    exact h1.trans hp
  have hq_pairwise : List.Pairwise
      (fun a b => (p.getD a default ≤ p.getD b default) ∧ a ≠ b) q :=
    hq.2.and hqnodup
  have hstrict : List.Pairwise (fun a b => p.getD a 0 < p.getD b 0) q := by
    refine hq_pairwise.imp_of_mem ?_
    intro a b ha hb hab
    have hpa : a < p.length := List.mem_range.mp (hq.1.mem_iff.mp ha)
    have hpb : b < p.length := List.mem_range.mp (hq.1.mem_iff.mp hb)
    have hle : p.getD a 0 ≤ p.getD b 0 := hab.1
    rcases lt_or_eq_of_le hle with hlt | heq
    · exact hlt
    · exfalso
      apply hab.2
      rw [List.getD_eq_get _ _ hpa, List.getD_eq_get _ _ hpb] at heq
      exact congrArg Fin.val ((List.Nodup.get_inj_iff hpnodup).mp heq)
  have hssorted : List.Pairwise (· < ·) (q.map (fun i => p.getD i 0)) :=
    List.pairwise_map.mpr hstrict
  have hseq : q.map (fun i => p.getD i 0) = List.range n :=
    List.eq_of_perm_of_sorted hsperm (hssorted.imp le_of_lt)
      ((List.pairwise_lt_range n).imp le_of_lt)
  have hk2 : k < q.length := by rw [hqlen]; exact hk
  have hfin : (q.map (fun i => p.getD i 0)).getD k 0 = k := by
    rw [hseq,
      List.getD_eq_get _ _ (show k < (List.range n).length by
        rw [List.length_range]; exact hk)]
    exact List.get_range k _
  rw [getD_map_in _ _ k 0 0 hk2] at hfin
  exact hfin

theorem filterMap_if_lt (l : List ℕ) (m : ℕ) :
    l.filterMap (fun r => if r < m then some r else none)
      = l.filter (fun r => decide (r < m)) := by
  induction l with
  | nil => rfl
  | cons a t ih =>
    by_cases h : a < m
    · simp [List.filterMap_cons, List.filter_cons, h, ih]
    · simp [List.filterMap_cons, List.filter_cons, h, ih]

theorem range_filter_lt (n m : ℕ) :
    (List.range n).filter (fun r => decide (r < m)) = List.range (min m n) := by
  induction n with
  | zero => simp
  | succ n ih =>
    rw [List.range_succ, List.filter_append, ih]
    by_cases h : n < m
    · have h1 : min m (n + 1) = n + 1 := by omega
      have h2 : min m n = n := by omega
      rw [h1, h2]
      simp [List.filter_cons, h, List.range_succ]
    · have h1 : min m (n + 1) = min m n := by omega
      rw [h1]
      simp [List.filter_cons, h]

/-- Claim C5 counterexample: the claimed stable input-index tie-break is not a
property of the program. Line 145 calls `np.argsort` with the default sort
kind, whose tie order is unspecified, and the anti-stable order is an
admissible sort of the tied normalized variances `[3, 3]`: the inner argsort
may return `[1, 0]`, the outer argsort of `[1, 0]` is `[1, 0]`, so gene 0
receives rank 1 and gene 1 receives rank 0 — the tied gene with the smaller
input index does NOT get the smaller rank. -/
theorem seurat_v3_stable_tie_not_guaranteed_cex :
    isArgsortOf (([3, 3] : List ℚ).map (fun v => -v)) [1, 0]
    ∧ isArgsortOf [1, 0] [1, 0]
    ∧ ([3, 3] : List ℚ).getD 0 0 = ([3, 3] : List ℚ).getD 1 0
    ∧ ¬ (([1, 0] : List ℕ).getD 0 0 < ([1, 0] : List ℕ).getD 1 0) := by
  refine ⟨by decide, by decide, by decide, by decide⟩

/-- Claim C5 (amended): for flavor `seurat_v3` with a single batch, for every
admissible pair of argsort outputs (`ord` for `np.argsort(-xs)`, `ranks` for
`np.argsort(ord)` — any value-sorting permutations, since the default sort
kind's tie order is unspecified): (i) ranks order genes by descending
normalized variance (a smaller rank never has a smaller variance); (ii) a gene
of rank 0 has the maximum normalized variance; (iii) rank 0 survives the top-N
masking iff `N ≥ 1`; (iv) the non-NaN masked ranks are exactly the values
`0 .. min(N, n) - 1`, each exactly once; (v) every gene ranked at or beyond
the top N has rank NaN. The stable input-index tie-break asserted by the
original claim is not guaranteed (see the counterexample). -/
theorem seurat_v3_rank_properties_any (xs : List ℚ) (nTop i j : ℕ)
    (ord ranks : List ℕ)
    (hord : isArgsortOf (xs.map (fun v => -v)) ord)
    (hranks : isArgsortOf ord ranks)
    (hi : i < xs.length) (hj : j < xs.length) :
    (ranks.getD i 0 < ranks.getD j 0 → xs.getD j 0 ≤ xs.getD i 0)
    ∧ (ranks.getD i 0 = 0 → xs.getD j 0 ≤ xs.getD i 0)
    ∧ ((seuratV3Ranks ranks nTop).getD i none = some 0
        ↔ (ranks.getD i 0 = 0 ∧ 0 < nTop))
    ∧ List.Perm ((seuratV3Ranks ranks nTop).filterMap id)
        (List.range (min nTop xs.length))
    ∧ (nTop ≤ ranks.getD i 0 → (seuratV3Ranks ranks nTop).getD i none = none) := by
  have hordperm : List.Perm ord (List.range xs.length) := by
    have h := hord.1
    rwa [List.length_map] at h
  have hordlen : ord.length = xs.length := by
    rw [hordperm.length_eq, List.length_range]
  have hranksperm : List.Perm ranks (List.range xs.length) := by
    have h := hranks.1
    rwa [hordlen] at h
  have hrlen : ranks.length = xs.length := by
    rw [hranksperm.length_eq, List.length_range]
  have hinv : ∀ k, k < xs.length → ord.getD (ranks.getD k 0) 0 = k :=
    fun k hk => getD_sortperm_inverse ord xs.length hordperm ranks hranks k hk
  have hrlt : ∀ k, k < xs.length → ranks.getD k 0 < xs.length := by
    intro k hk
    have hmem : ranks.getD k 0 ∈ ranks := by
      rw [List.getD_eq_get _ _ (show k < ranks.length by omega)]
      exact List.get_mem _ _ _
    exact List.mem_range.mp (hranksperm.mem_iff.mp hmem)
  have horder : ∀ a b, a < xs.length → b < xs.length →
      ranks.getD a 0 < ranks.getD b 0 → xs.getD b 0 ≤ xs.getD a 0 := by
    intro a b haa hbb hab
    have hra := hrlt a haa
    have hrb := hrlt b hbb
    have hai : ranks.getD a 0 < ord.length := by omega
    have hbi : ranks.getD b 0 < ord.length := by omega
    have hkey : (xs.map (fun v => -v)).getD (ord.get ⟨ranks.getD a 0, hai⟩) default
        ≤ (xs.map (fun v => -v)).getD (ord.get ⟨ranks.getD b 0, hbi⟩) default :=
      List.pairwise_iff_get.mp hord.2 _ _ (Fin.mk_lt_mk.mpr hab)
    have hga : ord.get ⟨ranks.getD a 0, hai⟩ = a := by
      have h0 := hinv a haa
      rw [List.getD_eq_get _ _ hai] at h0
      exact h0
    have hgb : ord.get ⟨ranks.getD b 0, hbi⟩ = b := by
      have h0 := hinv b hbb
      rw [List.getD_eq_get _ _ hbi] at h0
      exact h0
    rw [hga, hgb] at hkey
    have hma : (xs.map (fun v => -v)).getD a (default : ℚ) = -(xs.getD a 0) :=
      getD_map_in xs _ a _ 0 haa
    have hmb : (xs.map (fun v => -v)).getD b (default : ℚ) = -(xs.getD b 0) :=
      getD_map_in xs _ b _ 0 hbb
    rw [hma, hmb] at hkey
    linarith
  refine ⟨horder i j hi hj, ?_, ?_, ?_, ?_⟩
  · intro h0
    rcases eq_or_ne j i with he | hne
    · rw [he]
    · have hne2 : ranks.getD i 0 ≠ ranks.getD j 0 := by
        intro he2
        apply hne
        have h1 := hinv i hi
        have h2 := hinv j hj
        rw [he2] at h1
        exact h2.symm.trans h1
      have hlt : ranks.getD i 0 < ranks.getD j 0 := by omega
      exact horder i j hi hj hlt
  · rw [seuratV3Ranks, getD_map_in _ _ i none 0 (by omega)]
    by_cases h : ranks.getD i 0 < nTop
    · rw [if_pos h]
      constructor
      · intro he
        injection he with he'
        exact ⟨he', by omega⟩
      · rintro ⟨h1, h2⟩
        rw [h1]
    · rw [if_neg h]
      constructor
      · intro he
        exact Option.noConfusion he
      · rintro ⟨h1, h2⟩
        omega
  · rw [seuratV3Ranks, List.filterMap_map]
    have h2 : List.filterMap (id ∘ fun r => if r < nTop then some r else none) ranks
        = List.filter (fun r => decide (r < nTop)) ranks := by
      have h0 : (id ∘ fun r : ℕ => if r < nTop then some r else none)
          = (fun r : ℕ => if r < nTop then some r else none) := rfl
      rw [h0, filterMap_if_lt]
    rw [h2]
    have h3 := hranksperm.filter (fun r => decide (r < nTop))
    rwa [range_filter_lt] at h3
  · intro h
    rw [seuratV3Ranks, getD_map_in _ _ i none 0 (by omega), if_neg (by omega)]

/-- Witness for `seurat_v3_rank_properties_any` at normalized variances
`[1, 3, 3]` with `N = 2`, the admissible argsort outputs `ord = [1, 2, 0]` and
`ranks = [2, 0, 1]`, checking genes `i = 1`, `j = 0`. -/
theorem seurat_v3_rank_properties_any_witness :
    (isArgsortOf (([1, 3, 3] : List ℚ).map (fun v => -v)) [1, 2, 0]
      ∧ isArgsortOf [1, 2, 0] [2, 0, 1]
      ∧ 1 < ([1, 3, 3] : List ℚ).length ∧ 0 < ([1, 3, 3] : List ℚ).length)
    ∧ ((([2, 0, 1] : List ℕ).getD 1 0 < ([2, 0, 1] : List ℕ).getD 0 0
          → ([1, 3, 3] : List ℚ).getD 0 0 ≤ ([1, 3, 3] : List ℚ).getD 1 0)
      ∧ (([2, 0, 1] : List ℕ).getD 1 0 = 0
          → ([1, 3, 3] : List ℚ).getD 0 0 ≤ ([1, 3, 3] : List ℚ).getD 1 0)
      ∧ ((seuratV3Ranks [2, 0, 1] 2).getD 1 none = some 0
          ↔ (([2, 0, 1] : List ℕ).getD 1 0 = 0 ∧ 0 < 2))
      ∧ List.Perm ((seuratV3Ranks [2, 0, 1] 2).filterMap id)
          (List.range (min 2 ([1, 3, 3] : List ℚ).length))
      ∧ (2 ≤ ([2, 0, 1] : List ℕ).getD 1 0 →
          (seuratV3Ranks [2, 0, 1] 2).getD 1 none = none)) :=
  ⟨⟨by decide, by decide, by decide, by decide⟩,
    seurat_v3_rank_properties_any [1, 3, 3] 2 1 0 [1, 2, 0] [2, 0, 1]
      (by decide) (by decide) (by decide) (by decide)⟩
